import Mathlib

/-!
Shallow embedding of `src/components/LUD16Harvester.tsx` (BoltTouring/lud16harvester).

Strings are modelled as `List Char` (one entry per code point). React `useState` /
`useRef` cells become fields of one `Session` record; the handlers
(`parseRelays`, `isValidLud16`, `processEvent`, `stopHarvesting`,
`startHarvesting`, the timeout and interval callbacks, the 2s grace timer and
the unmount cleanup) become state transformers.  The single-threaded,
callback-driven execution model of the component is captured by a labelled
transition relation `StepR` plus a reachability predicate.
-/

/-- Strings of the TypeScript source, one `Char` per code point. -/
abbrev Str := List Char

/-- The character class `\s` of JavaScript regular expressions (also the set
removed by `String.prototype.trim`): space, tab, LF, VT, FF, CR, NBSP, and the
Unicode space separators, line/paragraph separators and BOM. -/
def isJsSpace (c : Char) : Bool :=
  c == ' ' || c == '\t' || c == '\n' || c.val == 11 || c.val == 12 || c == '\r' ||
  c.val == 0xA0 || c.val == 0x1680 || (0x2000 ≤ c.val && c.val ≤ 0x200A) ||
  c.val == 0x2028 || c.val == 0x2029 || c.val == 0x202F || c.val == 0x205F ||
  c.val == 0x3000 || c.val == 0xFEFF

/-- The character class `[^@\s]` used three times in `LUD16_REGEX`. -/
def lud16CharOk (c : Char) : Bool :=
  !(c == '@' || isJsSpace c)

/-- Helper for the `[^@\s]+\.[^@\s]+` tail of the regex: the list contains a
`'.'` at some position other than the last one. -/
def hasDotNotLast : Str → Bool
  | [] => false
  | [_] => false
  | c :: rest => c == '.' || hasDotNotLast rest

/-- The list decomposes as `d1 ++ '.' :: d2` with `d1` and `d2` non-empty,
i.e. it contains an interior `'.'`. -/
def hasInteriorDot : Str → Bool
  | [] => false
  | _ :: rest => hasDotNotLast rest

/-- `LUD16_REGEX = /^[^@\s]+@[^@\s]+\.[^@\s]+$/` (line 22 of the source),
applied via `.test`.  Because the character class excludes `'@'`, a match
forces the local part to be the maximal `'@'`-free prefix, the next character
to be `'@'`, and the remainder to be `'@'`-free, whitespace-free and to
decompose as `[^@\s]+ '.' [^@\s]+` — which (as `'.'` itself satisfies
`[^@\s]`) is exactly an interior dot.  `notAtSign` is the complement of the
literal `'@'`, used to locate the separator. -/
def notAtSign (c : Char) : Bool := !(c == '@')

/-- See the comment on `notAtSign`: `LUD16_REGEX.test s`. -/
def lud16RegexTest (s : Str) : Bool :=
  match s.dropWhile notAtSign with
  | [] => false
  | _ :: t =>
      !(s.takeWhile notAtSign).isEmpty && (s.takeWhile notAtSign).all lud16CharOk &&
      t.all lud16CharOk && hasInteriorDot t

/-- A JavaScript value as far as `isValidLud16 (value: unknown)` can
distinguish it: a string, or anything that is not a string (including
`undefined` for a missing `lud16` field). -/
inductive JsVal where
  | str (s : Str)
  | nonString
  deriving DecidableEq

/-- `isValidLud16` (lines 54-56): `typeof value === 'string' &&
LUD16_REGEX.test(value)`. -/
def isValidLud16 : JsVal → Bool
  | .str s => lud16RegexTest s
  | .nonString => false

/-- Outcome of `JSON.parse(event.content)` followed by reading `.lud16`, the
only parts of an incoming event the component looks at: the parse throws
(`malformed`), or it yields a value whose `lud16` field is `v` (with
`JsVal.nonString` covering a missing field / non-string value). -/
inductive Payload where
  | malformed
  | parsed (v : JsVal)
  deriving DecidableEq

/-- `String.prototype.split` against the character alternatives of a set
regex such as `/[\n,]/`: every separator occurrence cuts, adjacent
separators and boundary separators produce empty pieces, and the empty
string yields `[[]]`. -/
def splitCharList (sep : Char → Bool) : Str → List Str
  | [] => [[]]
  | c :: rest =>
      match splitCharList sep rest with
      | [] => [[c]]
      | t :: ts => if sep c then [] :: t :: ts else (c :: t) :: ts

/-- `String.prototype.trim`: remove leading and trailing JS whitespace. -/
def jsTrim (s : Str) : Str :=
  ((s.dropWhile isJsSpace).reverse.dropWhile isJsSpace).reverse

/-- The secure-websocket scheme prefix `'wss://'`. -/
def wssScheme : Str := ['w', 's', 's', ':', '/', '/']

/-- `url.startsWith('wss://')`. -/
def startsWithWss (url : Str) : Bool :=
  url.take wssScheme.length == wssScheme

/-- `parseRelays` (lines 46-51): split on `/[\n,]/`, trim each token, keep
non-empty tokens starting with `wss://`. -/
def parseRelays (input : Str) : List Str :=
  (((splitCharList (fun c => c == '\n' || c == ',') input).map jsTrim).filter
    (fun url => decide (0 < url.length) && startsWithWss url))

/-- `MAX_ADDRESSES` (line 20). -/
def MAX_ADDRESSES : Nat := 21

/-- `TIMEOUT_MS` (line 21), in milliseconds. -/
def TIMEOUT_MS : Int := 45000

/-- The per-relay connection status of the `RelayStatus` interface. -/
inductive ConnStatus where
  | connecting
  | connected
  | error
  deriving DecidableEq

/-- The `RelayStatus` interface (lines 24-28). -/
structure RelayStatus where
  url : Str
  status : ConnStatus
  errMsg : Option String := none
  deriving DecidableEq

/-- The mutable state of one `LUD16Harvester` component instance: every
`useState` cell and every `useRef` cell.  Timer ids and the pool / sub
handles carry no information the logic reads beyond null-ness, so they are
modelled as `Bool` ("currently non-null"). -/
structure Session where
  relayInput : Str
  isRunning : Bool
  foundAddresses : List Str
  relayStatuses : List RelayStatus
  statusMessage : String
  timeRemaining : Option Nat
  pool : Bool
  addressSet : List Str
  timeoutId : Bool
  intervalId : Bool
  subId : Bool
  startTime : Option Int
  deriving DecidableEq

/-- `Set.prototype.add`: append if absent (JS sets preserve insertion
order; `size` is the length of this duplicate-free list). -/
def setAdd (set : List Str) (v : Str) : List Str :=
  if v ∈ set then set else set ++ [v]

/-- `stopHarvesting` (lines 83-107): clear the running flag, set the status
message to `'Stopped'`, clear both timers, close pool and subscription when
both handles are non-null (the `poolRef.current && subIdRef.current` guard),
and clear the start time and the remaining-time display.  The
`parseRelays(relayInput)` call feeding `pool.close` has no effect on the
session state. -/
def stopHarvesting (s : Session) : Session :=
  let closed := s.pool && s.subId
  { s with
    isRunning := false
    statusMessage := "Stopped"
    timeoutId := false
    intervalId := false
    pool := if closed then false else s.pool
    subId := if closed then false else s.subId
    startTime := none
    timeRemaining := none }

/-- `processEvent` (lines 59-80): parse failure and non-string / invalid
`lud16` values are discarded silently; a known address is discarded; a new
valid address is appended to the sequence and inserted into the set, and if
the set size then reaches `MAX_ADDRESSES`, `stopHarvesting` is invoked
synchronously. -/
def processEvent (s : Session) (p : Payload) : Session :=
  match p with
  | .malformed => s
  | .parsed .nonString => s
  | .parsed (.str l) =>
      if isValidLud16 (.str l) = false then s
      else if l ∈ s.addressSet then s
      else
        let s' := { s with
          addressSet := setAdd s.addressSet l
          foundAddresses := s.foundAddresses ++ [l] }
        if MAX_ADDRESSES ≤ s'.addressSet.length then stopHarvesting s' else s'

/-- The template string `Listening to ${relays.length} relay(s)...`. -/
def listeningMsg (n : Nat) : String :=
  "Listening to " ++ toString n ++ " relay(s)..."

/-- `startHarvesting` (lines 110-191).  `now` is `Date.now()`; `subFail` is
`none` when `pool.subscribeMany` returns normally and `some m` when it throws
an error whose message is `m`.  The function first resets the address state,
sets the running flag and records the start time; if parsing the relay input
yields no endpoint it records the configuration error and clears the running
flag (start time, address reset and the rest of the state are left as just
written); otherwise it initialises per-relay statuses, creates the pool, arms
the one-shot timeout and the repeating interval, sets the listening message
and subscribes — storing the subscription handle on success and, on a thrown
error, recording the error message and invoking `stopHarvesting`. -/
def startHarvesting (now : Int) (subFail : Option String) (s : Session) : Session :=
  let s1 := { s with
    addressSet := ([] : List Str)
    foundAddresses := ([] : List Str)
    relayStatuses := ([] : List RelayStatus)
    isRunning := true
    statusMessage := "Starting..."
    startTime := some now }
  let relays := parseRelays s.relayInput
  if relays.length = 0 then
    { s1 with
      statusMessage := "Error: No valid relay URLs provided"
      isRunning := false }
  else
    let s2 := { s1 with
      relayStatuses := relays.map (fun u => { url := u, status := ConnStatus.connecting })
      pool := true
      timeoutId := true
      intervalId := true
      statusMessage := listeningMsg relays.length }
    match subFail with
    | none => { s2 with subId := true }
    | some m => stopHarvesting { s2 with statusMessage := "Error: " ++ m }

/-- The one-shot timeout callback (lines 135-138): record `'Timeout reached'`
and call `stopHarvesting`. -/
def timeoutFire (s : Session) : Session :=
  stopHarvesting { s with statusMessage := "Timeout reached" }

/-- The repeating 100ms interval callback (lines 141-154): when the start
time is set (and non-zero — JS truthiness of `startTimeRef.current`),
recompute the remaining time, publish `Math.ceil(remaining / 1000)`, and
disarm the interval itself once the remaining time hits zero. -/
def intervalTick (now : Int) (s : Session) : Session :=
  match s.startTime with
  | none => s
  | some t0 =>
      if t0 = 0 then s
      else
        let remaining := max 0 (TIMEOUT_MS - (now - t0))
        let s1 := { s with timeRemaining := some ((remaining.toNat + 999) / 1000) }
        if remaining ≤ 0 then { s1 with intervalId := false } else s1

/-- The 2s grace timer (lines 182-186): optimistically mark every configured
relay `connected`. -/
def markConnected (s : Session) : Session :=
  { s with relayStatuses := s.relayStatuses.map (fun r => { r with status := ConnStatus.connected }) }

/-- The `useEffect` cleanup (lines 194-200): `if (isRunning)
stopHarvesting()`.  The effect runs once (empty dependency array), so the
closure captures `isRunning` from the first render — the `captured` argument
records that captured value, not the current one. -/
def unmountCleanup (captured : Bool) (s : Session) : Session :=
  if captured then stopHarvesting s else s

/-- The component state after the first render: every `useState` initial
value and every `useRef` initial value, with the relay textarea holding
`input`. -/
def initialSession (input : Str) : Session :=
  { relayInput := input
    isRunning := false
    foundAddresses := []
    relayStatuses := []
    statusMessage := "Ready to start"
    timeRemaining := none
    pool := false
    addressSet := []
    timeoutId := false
    intervalId := false
    subId := false
    startTime := none }

/-- Labels of the cooperatively scheduled callbacks that can mutate the
session. -/
inductive Act where
  | setInput (inp : Str)
  | start (now : Int) (subFail : Option String)
  | deliver (p : Payload)
  | timeout
  | tick (now : Int)
  | grace
  | stop

/-- The labelled transition relation of the component.  Guards record when
the event-loop can actually run a callback: editing the textarea and
pressing Start are disabled while running, event delivery requires the open
subscription, and the timer callbacks require their timer to be armed.  The
Stop button and the 2s grace timer (which is never cancelled) carry no
guard. -/
inductive StepR : Session → Act → Session → Prop where
  | setInput {s inp} (h : s.isRunning = false) :
      StepR s (.setInput inp) { s with relayInput := inp }
  | start {s now subFail} (h : s.isRunning = false) :
      StepR s (.start now subFail) (startHarvesting now subFail s)
  | deliver {s p} (h : s.subId = true) :
      StepR s (.deliver p) (processEvent s p)
  | timeout {s} (h : s.timeoutId = true) :
      StepR s .timeout (timeoutFire s)
  | tick {s now} (h : s.intervalId = true) :
      StepR s (.tick now) (intervalTick now s)
  | grace {s} : StepR s .grace (markConnected s)
  | stop {s} : StepR s .stop (stopHarvesting s)

/-- States reachable from a freshly mounted component. -/
inductive Reachable : Session → Prop where
  | init (input : Str) : Reachable (initialSession input)
  | step {s a s'} : Reachable s → StepR s a s' → Reachable s'

/-- The sequence/set synchronisation invariant of the data model: the
ordered `foundAddresses` sequence and the membership set hold exactly the
same elements (here: are the same duplicate-free list, JS sets being
insertion-ordered). -/
def syncInv (s : Session) : Prop :=
  s.foundAddresses = s.addressSet ∧ s.addressSet.Nodup

/-- The inductive session invariant used for the reachability proofs. -/
def SessionInv (s : Session) : Prop :=
  s.foundAddresses = s.addressSet ∧
  s.addressSet.Nodup ∧
  s.addressSet.length ≤ MAX_ADDRESSES ∧
  (s.subId = true → s.pool = true) ∧
  (s.subId = true → s.isRunning = true) ∧
  (s.isRunning = true → s.addressSet.length < MAX_ADDRESSES)

/-- All deliveries in `ps` happen while the subscription is open. -/
def deliverOk : Session → List Payload → Bool
  | _, [] => true
  | s, p :: ps => s.subId && deliverOk (processEvent s p) ps

/-- The lud16 shape exactly as claim C2 states it: exactly one `'@'`
separating a non-empty local part from a domain part containing at least one
`'.'`, no whitespace anywhere. -/
def claimedLud16Shape (s : Str) : Prop :=
  ∃ loc dom, s = loc ++ '@' :: dom ∧ loc ≠ [] ∧ '@' ∉ loc ∧ '@' ∉ dom ∧
    '.' ∈ dom ∧ ∀ c ∈ s, isJsSpace c = false

/-- The amended lud16 shape: as claimed, except that the domain part must
contain a `'.'` with at least one character on each side of it inside the
domain. -/
def lud16Shape (s : Str) : Prop :=
  ∃ loc dom, s = loc ++ '@' :: dom ∧ loc ≠ [] ∧ '@' ∉ loc ∧ '@' ∉ dom ∧
    (∃ d1 d2, dom = d1 ++ '.' :: d2 ∧ d1 ≠ [] ∧ d2 ≠ []) ∧
    ∀ c ∈ s, isJsSpace c = false

/-- A relay textarea content holding one valid endpoint. -/
def wssR : Str := "wss://r".toList

/-- The n-th of 21 pairwise distinct valid lud16 addresses (`'a'@x.y` …
`'u'@x.y`) used to reach the address goal in witnesses. -/
def mkAddr (n : Nat) : Str := [Char.ofNat (97 + n), '@', 'x', '.', 'y']

/-- 21 deliveries of pairwise distinct valid addresses. -/
def payloads21 : List Payload :=
  (List.range MAX_ADDRESSES).map (fun n => Payload.parsed (JsVal.str (mkAddr n)))

/-- The session right after a successful start on one relay endpoint. -/
def started : Session := startHarvesting 0 none (initialSession wssR)

/-- The session after the address goal has been reached: a successful start
followed by 21 deliveries of distinct valid addresses. -/
def sStar : Session := payloads21.foldl processEvent started

theorem lud16CharOk_iff {c : Char} :
    lud16CharOk c = true ↔ ¬c = '@' ∧ isJsSpace c = false := by
  simp [lud16CharOk]

theorem dropWhile_head_false {p : Char → Bool} {l : Str} :
    ∀ {x : Char} {xs : Str}, l.dropWhile p = x :: xs → p x = false := by
  induction l with
  | nil => intro x xs h; simp [List.dropWhile] at h
  | cons y ys ih =>
      intro x xs h
      rw [List.dropWhile_cons] at h
      split at h
      · exact ih h
      · next hy =>
          injection h with h1 _
          subst h1
          simpa using hy

theorem hasDotNotLast_iff :
    ∀ (l : Str), hasDotNotLast l = true ↔ ∃ b c, l = b ++ '.' :: c ∧ c ≠ []
  | [] => by
      simp only [hasDotNotLast]
      constructor
      · intro h; exact absurd h (by simp)
      · rintro ⟨b, c, h, -⟩
        exact absurd h.symm (by simp)
  | [x] => by
      simp only [hasDotNotLast]
      constructor
      · intro h; exact absurd h (by simp)
      · rintro ⟨b, c, h, hc⟩
        cases b with
        | nil =>
            injection h with h1 h2
            exact absurd h2.symm hc
        | cons b2 bs =>
            rw [List.cons_append] at h
            injection h with _ h2
            exact absurd h2.symm (by simp)
  | x :: y :: rest => by
      simp only [hasDotNotLast, Bool.or_eq_true, beq_iff_eq]
      constructor
      · rintro (rfl | h)
        · exact ⟨[], y :: rest, rfl, by simp⟩
        · obtain ⟨b, c, hbc, hc⟩ := (hasDotNotLast_iff (y :: rest)).mp h
          exact ⟨x :: b, c, by rw [List.cons_append, hbc], hc⟩
      · rintro ⟨b, c, hbc, hc⟩
        cases b with
        | nil =>
            injection hbc with h1 _
            exact Or.inl h1
        | cons b2 bs =>
            rw [List.cons_append] at hbc
            injection hbc with _ h2
            exact Or.inr ((hasDotNotLast_iff (y :: rest)).mpr ⟨bs, c, h2, hc⟩)

theorem hasInteriorDot_iff (l : Str) :
    hasInteriorDot l = true ↔ ∃ b c, l = b ++ '.' :: c ∧ b ≠ [] ∧ c ≠ [] := by
  match l with
  | [] =>
      simp only [hasInteriorDot]
      constructor
      · intro h; exact absurd h (by simp)
      · rintro ⟨b, c, h, -, -⟩
        exact absurd h.symm (by simp)
  | x :: rest =>
      simp only [hasInteriorDot]
      rw [hasDotNotLast_iff]
      constructor
      · rintro ⟨b, c, hbc, hc⟩
        exact ⟨x :: b, c, by rw [List.cons_append, hbc], by simp, hc⟩
      · rintro ⟨b, c, hbc, hb, hc⟩
        cases b with
        | nil => exact absurd rfl hb
        | cons b2 bs =>
            rw [List.cons_append] at hbc
            injection hbc with _ h2
            exact ⟨bs, c, h2, hc⟩

theorem lud16RegexTest_iff (s : Str) : lud16RegexTest s = true ↔ lud16Shape s := by
  constructor
  · intro h
    unfold lud16RegexTest at h
    split at h
    · exact absurd h (by simp)
    · rename_i x t heq
      have hx : notAtSign x = false := dropWhile_head_false heq
      have hx2 : x = '@' := by simpa [notAtSign] using hx
      subst hx2
      have hs : s.takeWhile notAtSign ++ '@' :: t = s := by
        rw [← heq, List.takeWhile_append_dropWhile]
      simp only [Bool.and_eq_true] at h
      obtain ⟨⟨⟨hne, hall1⟩, hall2⟩, hdot⟩ := h
      have hnel : s.takeWhile notAtSign ≠ [] := by
        intro hcon; rw [hcon] at hne; simp at hne
      refine ⟨s.takeWhile notAtSign, t, hs.symm, hnel, ?_, ?_, ?_, ?_⟩
      · intro hmem
        exact (lud16CharOk_iff.mp (List.all_eq_true.mp hall1 _ hmem)).1 rfl
      · intro hmem
        exact (lud16CharOk_iff.mp (List.all_eq_true.mp hall2 _ hmem)).1 rfl
      · exact (hasInteriorDot_iff t).mp hdot
      · intro c hc
        rw [← hs] at hc
        rcases List.mem_append.mp hc with hcl | hcr
        · exact (lud16CharOk_iff.mp (List.all_eq_true.mp hall1 _ hcl)).2
        · rcases List.mem_cons.mp hcr with rfl | hct
          · decide
          · exact (lud16CharOk_iff.mp (List.all_eq_true.mp hall2 _ hct)).2
  · rintro ⟨loc, dom, rfl, hloc, hlocAt, hdomAt, hdot, hws⟩
    have hPloc : ∀ c ∈ loc, notAtSign c = true := by
      intro c hc
      simp only [notAtSign, Bool.not_eq_true', beq_eq_false_iff_ne, ne_eq]
      intro hcon
      exact hlocAt (hcon ▸ hc)
    have hdropEq : (loc ++ '@' :: dom).dropWhile notAtSign = '@' :: dom := by
      rw [List.dropWhile_append_of_pos hPloc,
        List.dropWhile_cons_of_neg (by decide : ¬notAtSign '@' = true)]
    have htakeEq : (loc ++ '@' :: dom).takeWhile notAtSign = loc := by
      rw [List.takeWhile_append_of_pos hPloc,
        List.takeWhile_cons_of_neg (by decide : ¬notAtSign '@' = true), List.append_nil]
    unfold lud16RegexTest
    split
    · rename_i heq
      rw [hdropEq] at heq
      exact absurd heq (by simp)
    · rename_i x t heq
      rw [hdropEq] at heq
      injection heq with hx ht
      subst ht
      rw [htakeEq]
      simp only [Bool.and_eq_true]
      refine ⟨⟨⟨?_, ?_⟩, ?_⟩, ?_⟩
      · cases loc with
        | nil => exact absurd rfl hloc
        | cons a as => simp
      · rw [List.all_eq_true]
        intro c hc
        exact lud16CharOk_iff.mpr
          ⟨fun hcon => hlocAt (hcon ▸ hc), hws c (List.mem_append.mpr (Or.inl hc))⟩
      · rw [List.all_eq_true]
        intro c hc
        exact lud16CharOk_iff.mpr
          ⟨fun hcon => hdomAt (hcon ▸ hc),
           hws c (List.mem_append.mpr (Or.inr (List.mem_cons.mpr (Or.inr hc))))⟩
      · exact (hasInteriorDot_iff dom).mpr hdot

/-- C2 counterexample: the value `"a@.b"` has exactly one `'@'`, a non-empty
local part, a domain part containing a `'.'` and no whitespace anywhere —
the shape claim C2 states — yet `isValidLud16` rejects it (the regex demands
a character of `[^@\s]` on each side of the dot), so the claimed
characterisation of the validator is false at this input. -/
theorem lud16_claimed_shape_counterexample :
    claimedLud16Shape ['a', '@', '.', 'b'] ∧
      isValidLud16 (JsVal.str ['a', '@', '.', 'b']) = false := by
  constructor
  · exact ⟨['a'], ['.', 'b'], rfl, by decide, by decide, by decide, by decide, by decide⟩
  · decide

/-- C2 (amended): the lud16 validator accepts a value iff it is a string
with exactly one `'@'` separating a non-empty local part from a domain part
that contains a `'.'` with at least one character on each side of it within
the domain, and no whitespace anywhere; every event whose lud16 value fails
the regex adds zero addresses and is discarded silently — in particular an
event whose payload is `{"lud16":"not-an-address"}` (no `'@'`) adds
nothing. -/
theorem lud16_validator_amended :
    (∀ v : JsVal, isValidLud16 v = true ↔ ∃ l, v = JsVal.str l ∧ lud16Shape l) ∧
    (∀ st l, lud16RegexTest l = false → processEvent st (.parsed (.str l)) = st) ∧
    (∀ st, processEvent st (.parsed (.str ("not-an-address".toList))) = st) := by
  have h2 : ∀ st l, lud16RegexTest l = false → processEvent st (.parsed (.str l)) = st := by
    intro st l h
    simp [processEvent, isValidLud16, h]
  refine ⟨?_, h2, fun st => h2 st _ (by decide)⟩
  intro v
  cases v with
  | str l =>
      simp only [isValidLud16]
      rw [lud16RegexTest_iff]
      constructor
      · intro h
        exact ⟨l, rfl, h⟩
      · rintro ⟨l2, hl2, hsh⟩
        injection hl2 with hll
        exact hll ▸ hsh
  | nonString =>
      simp only [isValidLud16]
      constructor
      · intro h; exact absurd h (by simp)
      · rintro ⟨l, hl, -⟩
        exact absurd hl (by simp)

/-- C2 witness: the amended theorem applied at a concrete invalid value and
a concrete session. -/
theorem lud16_validator_amended_witness :
    processEvent (initialSession []) (Payload.parsed (JsVal.str ['x'])) = initialSession [] :=
  lud16_validator_amended.2.1 (initialSession []) ['x'] (by decide)

theorem dropWhile_head?_false {p : Char → Bool} {l : Str} {c : Char}
    (h : (l.dropWhile p).head? = some c) : p c = false := by
  cases hx : l.dropWhile p with
  | nil => rw [hx] at h; exact absurd h (by simp)
  | cons a t =>
      rw [hx] at h
      injection h with h1
      exact h1 ▸ dropWhile_head_false hx

theorem jsTrim_getLast (l : Str) {c : Char} (h : (jsTrim l).getLast? = some c) :
    isJsSpace c = false := by
  unfold jsTrim at h
  rw [List.getLast?_reverse] at h
  exact dropWhile_head?_false h

theorem jsTrim_head (l : Str) {c : Char} (h : (jsTrim l).head? = some c) :
    isJsSpace c = false := by
  unfold jsTrim at h
  rw [List.head?_reverse] at h
  have hm : ((l.dropWhile isJsSpace).reverse).getLast? = some c := by
    conv_lhs =>
      rw [← List.takeWhile_append_dropWhile (p := isJsSpace)
        (l := (l.dropWhile isJsSpace).reverse)]
    rw [List.getLast?_append, h]
    rfl
  rw [List.getLast?_reverse] at hm
  exact dropWhile_head?_false hm

/-- C5: every endpoint returned by `parseRelays` starts with `wss://`, is
non-empty and carries no leading or trailing whitespace; the result is a
subsequence (order preserved, nothing reordered) of the trimmed split
tokens; the scenario-A input parses to exactly its three endpoints; and a
duplicated endpoint is kept twice. -/
theorem parseRelays_spec :
    (∀ (input : Str), ∀ u ∈ parseRelays input,
        startsWithWss u = true ∧ 0 < u.length ∧
        (∀ c, u.head? = some c → isJsSpace c = false) ∧
        (∀ c, u.getLast? = some c → isJsSpace c = false)) ∧
    (∀ input : Str,
        List.Sublist (parseRelays input)
          ((splitCharList (fun c => c == '\n' || c == ',') input).map jsTrim)) ∧
    parseRelays ("wss://a.example\nwss://b.example,wss://c.example".toList) =
      ["wss://a.example".toList, "wss://b.example".toList, "wss://c.example".toList] ∧
    parseRelays ("wss://a.example,wss://a.example".toList) =
      ["wss://a.example".toList, "wss://a.example".toList] := by
  refine ⟨?_, fun input => List.filter_sublist _, by decide, by decide⟩
  intro input u hu
  unfold parseRelays at hu
  rw [List.mem_filter] at hu
  obtain ⟨hmem, hpred⟩ := hu
  rw [Bool.and_eq_true] at hpred
  obtain ⟨hlen, hwss⟩ := hpred
  obtain ⟨t, -, rfl⟩ := List.mem_map.mp hmem
  exact ⟨hwss, of_decide_eq_true hlen,
    fun c hc => jsTrim_head t hc, fun c hc => jsTrim_getLast t hc⟩

/-- C5 witness: the theorem applied to the scenario-A input at its first
returned endpoint. -/
theorem parseRelays_spec_witness :
    startsWithWss ("wss://a.example".toList) = true ∧ isJsSpace 'w' = false :=
  ⟨(parseRelays_spec.1 ("wss://a.example\nwss://b.example,wss://c.example".toList)
      ("wss://a.example".toList) (by decide)).1,
   (parseRelays_spec.1 ("wss://a.example\nwss://b.example,wss://c.example".toList)
      ("wss://a.example".toList) (by decide)).2.2.1 'w' (by decide)⟩

theorem startHarvesting_of_no_relays (s : Session) (now : Int) (subFail : Option String)
    (h : parseRelays s.relayInput = []) :
    startHarvesting now subFail s =
      { s with
        addressSet := []
        foundAddresses := []
        relayStatuses := []
        isRunning := false
        statusMessage := "Error: No valid relay URLs provided"
        startTime := some now } := by
  simp [startHarvesting, h]

/-- C7: when the relay input parses to no endpoint (the empty string does),
`startHarvesting` fails immediately with the configuration-error status,
leaves the session not-running, and touches neither the subscription handle
nor the pool nor the timers. -/
theorem start_no_endpoints :
    parseRelays [] = [] ∧
    (∀ (s : Session) (now : Int) (subFail : Option String),
      parseRelays s.relayInput = [] →
        startHarvesting now subFail s =
          { s with
            addressSet := []
            foundAddresses := []
            relayStatuses := []
            isRunning := false
            statusMessage := "Error: No valid relay URLs provided"
            startTime := some now }) :=
  ⟨by decide, startHarvesting_of_no_relays⟩

/-- C7 witness: starting on the empty relay input. -/
theorem start_no_endpoints_witness :
    startHarvesting 5 none (initialSession []) =
      { initialSession [] with
        addressSet := []
        foundAddresses := []
        relayStatuses := []
        isRunning := false
        statusMessage := "Error: No valid relay URLs provided"
        startTime := some 5 } :=
  start_no_endpoints.2 (initialSession []) 5 none (by decide)

/-- C10: a start call that fails for lack of valid endpoints has already
cleared the discovered-address sequence and set of the prior run (the reset
happens before the endpoint check), even though the run does not start. -/
theorem failed_start_clears_addresses :
    ∀ (s : Session) (now : Int) (subFail : Option String),
      parseRelays s.relayInput = [] →
        (startHarvesting now subFail s).foundAddresses = [] ∧
        (startHarvesting now subFail s).addressSet = [] ∧
        (startHarvesting now subFail s).isRunning = false := by
  intro s now subFail h
  rw [startHarvesting_of_no_relays s now subFail h]
  exact ⟨rfl, rfl, rfl⟩

/-- C10 witness: a failed start on a session still holding an address from a
prior run. -/
theorem failed_start_clears_addresses_witness :
    (startHarvesting 0 none
      { initialSession [] with
        foundAddresses := [['a', '@', 'b', '.', 'c']]
        addressSet := [['a', '@', 'b', '.', 'c']] }).foundAddresses = [] :=
  (failed_start_clears_addresses
    { initialSession [] with
      foundAddresses := [['a', '@', 'b', '.', 'c']]
      addressSet := [['a', '@', 'b', '.', 'c']] } 0 none (by decide)).1

/-- C8 counterexample: on the freshly mounted (already stopped) session,
calling stop changes the observable status message (from `'Ready to start'`
to `'Stopped'`), so stop on a stopped session is not a no-op. -/
theorem stop_not_noop_counterexample :
    (initialSession []).isRunning = false ∧
      (stopHarvesting (initialSession [])).statusMessage ≠
        (initialSession []).statusMessage := by
  exact ⟨rfl, by decide⟩

/-- C8 (amended): stop is idempotent in the function sense — applying it
twice yields exactly the state of applying it once — and on any session
(in particular an already-stopped one) it leaves the discovered addresses,
relay statuses and relay input unchanged; but it unconditionally (re)sets
the status message to `'Stopped'` and clears the timers, start time and
remaining-time value rather than being a strict no-op. -/
theorem stop_idempotent_amended :
    (∀ s : Session, stopHarvesting (stopHarvesting s) = stopHarvesting s) ∧
    (∀ s : Session,
      (stopHarvesting s).statusMessage = "Stopped" ∧
      (stopHarvesting s).foundAddresses = s.foundAddresses ∧
      (stopHarvesting s).addressSet = s.addressSet ∧
      (stopHarvesting s).relayStatuses = s.relayStatuses ∧
      (stopHarvesting s).relayInput = s.relayInput ∧
      (stopHarvesting s).isRunning = false ∧
      (stopHarvesting s).timeoutId = false ∧
      (stopHarvesting s).intervalId = false ∧
      (stopHarvesting s).startTime = none ∧
      (stopHarvesting s).timeRemaining = none) := by
  constructor
  · intro s
    simp only [stopHarvesting]
    cases h : s.pool && s.subId with
    | false => simp [h]
    | true => simp [h]
  · intro s
    exact ⟨rfl, rfl, rfl, rfl, rfl, rfl, rfl, rfl, rfl, rfl⟩

/-- C3 evidence: the timeout callback records `'Timeout reached'` and calls
stop, but `stopHarvesting` unconditionally overwrites the status message
with `'Stopped'`, so firing the timeout produces exactly the same state as
an explicit user stop — the terminal message is `'Stopped'` for every stop
reason, not determined by it (the cleanup steps, being the whole of
`stopHarvesting`, are indeed identical). -/
theorem timeout_terminal_message :
    (∀ s : Session, timeoutFire s = stopHarvesting s) ∧
    (∀ s : Session, (timeoutFire s).statusMessage = "Stopped" ∧
      (stopHarvesting s).statusMessage = "Stopped") :=
  ⟨fun _ => rfl, fun _ => ⟨rfl, rfl⟩⟩

/-- C4 evidence: the unmount cleanup tests the `isRunning` value captured by
the effect closure at mount time, which is `false` on the first render, so
the cleanup is the identity on every session — in particular on a running
session with armed timeout, armed interval and open subscription, all of
which are therefore leaked on unmount instead of being stopped. -/
theorem unmount_cleanup_never_stops :
    (∀ input : Str, (initialSession input).isRunning = false) ∧
    (∀ (input : Str) (s : Session),
      unmountCleanup (initialSession input).isRunning s = s) ∧
    started.isRunning = true ∧ started.timeoutId = true ∧
    started.intervalId = true ∧ started.subId = true ∧
    unmountCleanup (initialSession wssR).isRunning started = started :=
  ⟨fun _ => rfl, fun _ _ => rfl, by decide, by decide, by decide, by decide, by decide⟩

theorem processEvent_mem {r : Session} {l : Str} (hmem : l ∈ r.addressSet) :
    processEvent r (.parsed (.str l)) = r := by
  simp [processEvent, hmem]

theorem processEvent_new_address {s : Session} {l : Str}
    (hval : lud16RegexTest l = true) (hnotin : l ∉ s.addressSet) :
    (processEvent s (.parsed (.str l))).addressSet = s.addressSet ++ [l] ∧
    (processEvent s (.parsed (.str l))).foundAddresses = s.foundAddresses ++ [l] := by
  have hv : isValidLud16 (JsVal.str l) = true := hval
  simp only [processEvent, hv, Bool.true_eq_false, if_false, if_neg hnotin,
    setAdd, if_neg hnotin]
  split
  · exact ⟨rfl, rfl⟩
  · exact ⟨rfl, rfl⟩

/-- C6: event processing is idempotent on the discovered addresses — for a
valid address not yet discovered in the running session, delivering two
events carrying it yields exactly one entry for it in the discovered
sequence and exactly one in the set (the second delivery returns the state
unchanged). -/
theorem dedup_idempotent :
    ∀ (s : Session) (l : Str), lud16RegexTest l = true → l ∉ s.addressSet →
      s.foundAddresses.count l = 0 →
      (processEvent (processEvent s (.parsed (.str l)))
          (.parsed (.str l))).foundAddresses.count l = 1 ∧
      (processEvent (processEvent s (.parsed (.str l)))
          (.parsed (.str l))).addressSet.count l = 1 ∧
      processEvent (processEvent s (.parsed (.str l))) (.parsed (.str l)) =
        processEvent s (.parsed (.str l)) := by
  intro s l hval hnotin hcount
  have hv : isValidLud16 (JsVal.str l) = true := hval
  obtain ⟨hset, hfound⟩ := processEvent_new_address hval hnotin
  have hmem : l ∈ (processEvent s (.parsed (.str l))).addressSet := by
    rw [hset]; exact List.mem_append_right _ (List.mem_singleton.mpr rfl)
  have h2 : processEvent (processEvent s (.parsed (.str l))) (.parsed (.str l)) =
      processEvent s (.parsed (.str l)) := processEvent_mem hmem
  refine ⟨?_, ?_, h2⟩
  · rw [h2, hfound, List.count_append, hcount]
    simp
  · rw [h2, hset, List.count_append, List.count_eq_zero.mpr hnotin]
    simp

/-- C6 witness: scenario C — delivering `{"lud16":"alice@example.com"}`
twice into a fresh session adds exactly one entry. -/
theorem dedup_idempotent_witness :
    (processEvent (processEvent (initialSession [])
        (.parsed (.str ("alice@example.com".toList))))
      (.parsed (.str ("alice@example.com".toList)))).foundAddresses.count
        ("alice@example.com".toList) = 1 :=
  (dedup_idempotent (initialSession []) ("alice@example.com".toList)
    (by decide) (by decide) (by decide)).1

theorem mem_setAdd_of_mem {set : List Str} {a l : Str} (h : a ∈ set) : a ∈ setAdd set l := by
  unfold setAdd
  split
  · exact h
  · exact List.mem_append_left _ h

theorem sessionInv_initial (input : Str) : SessionInv (initialSession input) :=
  ⟨rfl, List.nodup_nil, Nat.zero_le _, fun h => Bool.noConfusion h,
   fun h => Bool.noConfusion h, fun h => Bool.noConfusion h⟩

theorem stop_subId_false {s : Session} (h4 : s.subId = true → s.pool = true) :
    (stopHarvesting s).subId = false := by
  simp only [stopHarvesting]
  cases hsub : s.subId with
  | false => simp [hsub]
  | true => simp [h4 hsub, hsub]

theorem sessionInv_stopFields {s : Session} (h1 : s.foundAddresses = s.addressSet)
    (h2 : s.addressSet.Nodup) (h3 : s.addressSet.length ≤ MAX_ADDRESSES)
    (h4 : s.subId = true → s.pool = true) : SessionInv (stopHarvesting s) := by
  have hsub := stop_subId_false h4
  refine ⟨h1, h2, h3, ?_, ?_, ?_⟩
  · intro hs; rw [hsub] at hs; exact absurd hs (by decide)
  · intro hs; rw [hsub] at hs; exact absurd hs (by decide)
  · intro hr; simp [stopHarvesting] at hr

theorem sessionInv_stop {s : Session} (h : SessionInv s) : SessionInv (stopHarvesting s) :=
  sessionInv_stopFields h.1 h.2.1 h.2.2.1 h.2.2.2.1

theorem sessionInv_start {s : Session} (h : SessionInv s) (hrun : s.isRunning = false)
    (now : Int) (subFail : Option String) : SessionInv (startHarvesting now subFail s) := by
  obtain ⟨h1, h2, h3, h4, h5, h6⟩ := h
  have hsubf : s.subId = false := by
    cases hs : s.subId
    · rfl
    · rw [h5 hs] at hrun; exact absurd hrun (by decide)
  simp only [startHarvesting]
  split
  · refine ⟨rfl, List.nodup_nil, Nat.zero_le _, ?_, ?_, ?_⟩
    · intro hs
      have hs2 : s.subId = true := hs
      rw [hsubf] at hs2
      exact absurd hs2 (by decide)
    · intro hs
      have hs2 : s.subId = true := hs
      rw [hsubf] at hs2
      exact absurd hs2 (by decide)
    · intro hr
      have hr2 : (false : Bool) = true := hr
      exact absurd hr2 (by decide)
  · cases subFail with
    | none =>
        exact ⟨rfl, List.nodup_nil, Nat.zero_le _, fun _ => rfl, fun _ => rfl,
          fun _ => by show 0 < MAX_ADDRESSES; decide⟩
    | some m =>
        exact sessionInv_stopFields rfl List.nodup_nil (Nat.zero_le _) (fun _ => rfl)

theorem sessionInv_processEvent {s : Session} (h : SessionInv s) (hsub : s.subId = true)
    (p : Payload) : SessionInv (processEvent s p) := by
  obtain ⟨h1, h2, h3, h4, h5, h6⟩ := h
  have hlen : s.addressSet.length < MAX_ADDRESSES := h6 (h5 hsub)
  match p with
  | .malformed => exact ⟨h1, h2, h3, h4, h5, h6⟩
  | .parsed .nonString => exact ⟨h1, h2, h3, h4, h5, h6⟩
  | .parsed (.str l) =>
      simp only [processEvent]
      split
      · exact ⟨h1, h2, h3, h4, h5, h6⟩
      · split
        · exact ⟨h1, h2, h3, h4, h5, h6⟩
        · rename_i hnotin
          have hadd : setAdd s.addressSet l = s.addressSet ++ [l] := if_neg hnotin
          have hnodup : (setAdd s.addressSet l).Nodup := by
            rw [hadd, ← List.concat_eq_append]
            exact List.Nodup.concat hnotin h2
          have hfound : s.foundAddresses ++ [l] = setAdd s.addressSet l := by
            rw [hadd, h1]
          have hlen2 : (setAdd s.addressSet l).length ≤ MAX_ADDRESSES := by
            rw [hadd, List.length_append, List.length_singleton]
            omega
          split
          · exact sessionInv_stopFields hfound hnodup hlen2 (fun hs => h4 hs)
          · rename_i hlt
            refine ⟨hfound, hnodup, hlen2, fun hs => h4 hs, fun hs => h5 hs, fun _ => ?_⟩
            exact Nat.lt_of_not_le (fun hc => hlt hc)

theorem sessionInv_tick {s : Session} (h : SessionInv s) (now : Int) :
    SessionInv (intervalTick now s) := by
  obtain ⟨h1, h2, h3, h4, h5, h6⟩ := h
  simp only [intervalTick]
  split
  · exact ⟨h1, h2, h3, h4, h5, h6⟩
  · split
    · exact ⟨h1, h2, h3, h4, h5, h6⟩
    · split
      · exact ⟨h1, h2, h3, h4, h5, h6⟩
      · exact ⟨h1, h2, h3, h4, h5, h6⟩

theorem sessionInv_reachable {s : Session} (h : Reachable s) : SessionInv s := by
  induction h with
  | init input => exact sessionInv_initial input
  | step hr hstep ih =>
      cases hstep with
      | setInput h => exact ih
      | start h => exact sessionInv_start ih h _ _
      | deliver h => exact sessionInv_processEvent ih h _
      | timeout h => exact sessionInv_stopFields ih.1 ih.2.1 ih.2.2.1 ih.2.2.2.1
      | tick h => exact sessionInv_tick ih _
      | grace => exact ih
      | stop => exact sessionInv_stop ih

theorem processEvent_extends (s : Session) (p : Payload) :
    List.IsPrefix s.foundAddresses (processEvent s p).foundAddresses ∧
    ∀ a, a ∈ s.addressSet → a ∈ (processEvent s p).addressSet := by
  match p with
  | .malformed => exact ⟨List.prefix_refl _, fun a ha => ha⟩
  | .parsed .nonString => exact ⟨List.prefix_refl _, fun a ha => ha⟩
  | .parsed (.str l) =>
      simp only [processEvent]
      split
      · exact ⟨List.prefix_refl _, fun a ha => ha⟩
      · split
        · exact ⟨List.prefix_refl _, fun a ha => ha⟩
        · split
          · exact ⟨⟨[l], rfl⟩, fun a ha => mem_setAdd_of_mem ha⟩
          · exact ⟨⟨[l], rfl⟩, fun a ha => mem_setAdd_of_mem ha⟩

theorem intervalTick_found (now : Int) (s : Session) :
    (intervalTick now s).foundAddresses = s.foundAddresses := by
  simp only [intervalTick]
  split
  · rfl
  · split
    · rfl
    · split
      · rfl
      · rfl

theorem reachable_foldl_deliver :
    ∀ (ps : List Payload) (s : Session), Reachable s → deliverOk s ps = true →
      Reachable (ps.foldl processEvent s)
  | [], _, hr, _ => hr
  | p :: ps, s, hr, hok => by
      simp only [deliverOk, Bool.and_eq_true] at hok
      exact reachable_foldl_deliver ps (processEvent s p)
        (Reachable.step hr (StepR.deliver hok.1)) hok.2

/-- C1: on every reachable session state the discovered set and sequence
hold at most `MAX_ADDRESSES` (21) addresses; no event processing, stop,
timeout, interval tick or grace tick ever removes an address (the sequence
only ever grows by appending); and once the set has reached the maximum the
session is stopped — not running, subscription closed — so no deliver
transition exists from such a state and no event delivered after the stop
decision can add an address. -/
theorem session_address_bounds :
    (∀ s, Reachable s → s.addressSet.length ≤ MAX_ADDRESSES ∧
        s.foundAddresses.length ≤ MAX_ADDRESSES) ∧
    (∀ s p, List.IsPrefix s.foundAddresses (processEvent s p).foundAddresses ∧
        ∀ a, a ∈ s.addressSet → a ∈ (processEvent s p).addressSet) ∧
    (∀ (s : Session) (now : Int),
        (stopHarvesting s).foundAddresses = s.foundAddresses ∧
        (timeoutFire s).foundAddresses = s.foundAddresses ∧
        (intervalTick now s).foundAddresses = s.foundAddresses ∧
        (markConnected s).foundAddresses = s.foundAddresses) ∧
    (∀ s, Reachable s → MAX_ADDRESSES ≤ s.addressSet.length →
        s.isRunning = false ∧ s.subId = false ∧
        ∀ p s', StepR s (Act.deliver p) s' → False) := by
  refine ⟨?_, processEvent_extends, fun s now => ⟨rfl, rfl, intervalTick_found now s, rfl⟩, ?_⟩
  · intro s hr
    have h := sessionInv_reachable hr
    refine ⟨h.2.2.1, ?_⟩
    rw [h.1]
    exact h.2.2.1
  · intro s hr hfull
    have h := sessionInv_reachable hr
    have hrun : s.isRunning = false := by
      cases hi : s.isRunning
      · rfl
      · have := h.2.2.2.2.2 hi
        omega
    have hsub : s.subId = false := by
      cases hs : s.subId
      · rfl
      · rw [h.2.2.2.2.1 hs] at hrun
        exact absurd hrun (by decide)
    refine ⟨hrun, hsub, ?_⟩
    intro p s' hstep
    cases hstep with
    | deliver hg => rw [hsub] at hg; exact absurd hg (by decide)

/-- C1 witness: after a successful start and 21 deliveries of distinct
valid addresses the reachable state `sStar` holds exactly the maximum, is
stopped with the subscription closed, and a further (hypothetically
processed) event adds nothing that was not already present. -/
theorem session_address_bounds_witness :
    sStar.isRunning = false ∧ sStar.subId = false ∧
    sStar.addressSet.length ≤ MAX_ADDRESSES ∧
    mkAddr 0 ∈ (processEvent sStar Payload.malformed).addressSet := by
  have hreach : Reachable sStar :=
    reachable_foldl_deliver payloads21 started
      (Reachable.step (Reachable.init wssR) (StepR.start rfl)) (by decide)
  have h := session_address_bounds
  have h4 := h.2.2.2 sStar hreach (by decide)
  exact ⟨h4.1, h4.2.1, (h.1 sStar hreach).1,
    (h.2.1 sStar Payload.malformed).2 (mkAddr 0) (by decide)⟩

theorem syncInv_processEvent {s : Session} (h : syncInv s) (p : Payload) :
    syncInv (processEvent s p) := by
  obtain ⟨h1, h2⟩ := h
  match p with
  | .malformed => exact ⟨h1, h2⟩
  | .parsed .nonString => exact ⟨h1, h2⟩
  | .parsed (.str l) =>
      simp only [processEvent]
      split
      · exact ⟨h1, h2⟩
      · split
        · exact ⟨h1, h2⟩
        · rename_i hnotin
          have hadd : setAdd s.addressSet l = s.addressSet ++ [l] := if_neg hnotin
          have hnodup : (setAdd s.addressSet l).Nodup := by
            rw [hadd, ← List.concat_eq_append]
            exact List.Nodup.concat hnotin h2
          have hfound : s.foundAddresses ++ [l] = setAdd s.addressSet l := by
            rw [hadd, h1]
          split
          · exact ⟨hfound, hnodup⟩
          · exact ⟨hfound, hnodup⟩

theorem syncInv_startHarvesting (s : Session) (now : Int) (subFail : Option String) :
    syncInv (startHarvesting now subFail s) := by
  simp only [startHarvesting]
  split
  · exact ⟨rfl, List.nodup_nil⟩
  · cases subFail with
    | none => exact ⟨rfl, List.nodup_nil⟩
    | some m => exact ⟨rfl, List.nodup_nil⟩

/-- C9: on every reachable state the ordered discovered sequence and the
membership set are exactly the same duplicate-free list; and each of the
three operations — start, event processing, stop — preserves this
synchronisation invariant. -/
theorem set_matches_sequence :
    (∀ s, Reachable s → syncInv s) ∧
    (∀ (s : Session) (now : Int) (subFail : Option String) (p : Payload), syncInv s →
      syncInv (startHarvesting now subFail s) ∧ syncInv (processEvent s p) ∧
      syncInv (stopHarvesting s)) := by
  constructor
  · intro s hr
    have h := sessionInv_reachable hr
    exact ⟨h.1, h.2.1⟩
  · intro s now subFail p hsync
    exact ⟨syncInv_startHarvesting s now subFail, syncInv_processEvent hsync p,
      ⟨hsync.1, hsync.2⟩⟩

/-- C9 witness: the theorem applied at the freshly mounted session. -/
theorem set_matches_sequence_witness :
    syncInv (initialSession []) ∧ syncInv (stopHarvesting (initialSession [])) := by
  have h := set_matches_sequence
  have h1 := h.1 (initialSession []) (Reachable.init [])
  exact ⟨h1, (h.2 (initialSession []) 0 none Payload.malformed h1).2.2⟩
